import Mathlib

/-!
Verification of the `forgers` overlap-resolution engine.

This file gives a shallow embedding of the Rust sources (`src/forge.rs`,
`src/resolve.rs`) and proves / refutes the specification claims about them.

Modelling conventions:
* Rust `u64` / `usize` values are modelled as `Nat`; the only arithmetic the
  embedded code performs is addition plus the `position + reference.len() - 1`
  computation, which is modelled with truncated `Nat` subtraction (the real
  program always has a non-empty reference allele, so no underflow occurs).
* A Rust `panic!` / `std::process::exit(1)` is modelled by returning `none`;
  `some x` is a normal return of `x`.
* `HashMap` is modelled as an association list (`List (key × value)`); the
  only operations used by the sources are lookup and insertion of a vacant
  key, which the association list mirrors faithfully.
* The `f64` parameter `top` of `load_rank` is modelled as a rational number;
  the Rust cast `(top * nof_records as f64) as usize` (truncation toward
  zero, saturating at 0 for negative values) is modelled as
  `Int.toNat ∘ floor`.
-/

namespace Forgers

/-- Genotype of one sample: `Phased` / `Unphased` carry one alt-presence bit
per haplotype copy; `Missing` is an absent genotype.  The constructors are
exactly the ones matched in `are_coupled` in `src/resolve.rs`; the payload
(a list of alt-presence bits) follows the spec's data model, since the
parsing code (`parse_genotype` in `vcf_util`) is not among the sources. -/
inductive Genotype where
  | Phased (v : List Bool)
  | Unphased (v : List Bool)
  | Missing
  deriving DecidableEq, Repr

/-- VCF header, as far as the embedded code observes it: the sample list, plus
an abstract remainder (`items`) standing for the meta lines, so that two
headers can differ while having equal sample sets (the Rust code compares
whole headers with `!=`). -/
structure VCFHeader where
  items : List String
  samples : List String
  deriving DecidableEq, Repr, Inhabited

/-- Variant record, with the fields read by `src/resolve.rs` and
`src/forge.rs`: chromosome, 1-based position, reference allele and one
genotype per sample (positionally aligned with `header.samples`). -/
structure VCFRecord where
  header : VCFHeader
  chromosome : String
  position : Nat
  reference : String
  gts : List Genotype
  deriving DecidableEq, Repr, Inhabited

/-- Modelled from the spec: the genotype lookup
`parse_genotype(record.genotype(sample, b"GT"))` (its implementation lives in
`vcf_util` and is not among the sources).  It yields the sample's genotype; a
missing FORMAT key yields `Missing`. -/
def genotypeOf (r : VCFRecord) (i : Nat) : Genotype :=
  r.gts.getD i Genotype.Missing

/-- Inclusive positional range (`struct PosRange` in `src/resolve.rs`; the
Rust field `end` is a Lean keyword and is called `stop` here). -/
structure PosRange where
  start : Nat
  stop : Nat
  deriving DecidableEq, Repr

/-- Embeds `site_ref_range` of `src/resolve.rs`. -/
def site_ref_range (record : VCFRecord) : PosRange :=
  { start := record.position, stop := record.position + record.reference.length - 1 }

/-- Embeds `variant_ref_range` of `src/resolve.rs`. -/
def variant_ref_range (record : VCFRecord) : PosRange :=
  let start := record.position
  let stop := record.position + record.reference.length - 1
  if start ≠ stop then { start := start + 1, stop := stop }
  else { start := start, stop := stop }

/-- Embeds `is_range_overlapping` of `src/resolve.rs`. -/
def is_range_overlapping (r1 r2 : PosRange) : Bool :=
  let p := if r2.start < r1.start then (r2, r1) else (r1, r2)
  decide (p.1.start ≤ p.2.start) && decide (p.2.start ≤ p.1.stop)

/-- Embeds `merge_range` of `src/resolve.rs`. -/
def merge_range (r1 r2 : PosRange) : PosRange :=
  { start := min r1.start r2.start, stop := max r1.stop r2.stop }

/-- Embeds `is_ref_hom` of `src/resolve.rs`. -/
def is_ref_hom : Genotype → Option Bool
  | .Phased v => some (v.all fun x => !x)
  | .Unphased v => some (v.all fun x => !x)
  | .Missing => none

/-- The per-sample loop body of `are_coupled` (`src/resolve.rs`, lines
131-169), as a recursion over the list of genotype pairs of the samples.
`none` models a `panic!` (an `unwrap()` of `None`); an early `some` models a
`return` from the middle of the loop.  The match arms are in source order:
both missing, one missing (the Rust or-pattern split into its two cases),
both phased, and the remaining (≥ 1 unphased) arm, whose Rust body
`!is_ref_hom(&gt1).unwrap() && !is_ref_hom(&gt2).unwrap()` short-circuits. -/
def areCoupledGo : List (Genotype × Genotype) → Option Bool
  | [] => some false
  | (gt1, gt2) :: rest =>
    match gt1, gt2 with
    | .Missing, .Missing => some true
    | gt, .Missing => (is_ref_hom gt).map fun b => !b
    | .Missing, gt => (is_ref_hom gt).map fun b => !b
    | .Phased v1, .Phased v2 =>
      if (v1.zip v2).any (fun x => x.1 && x.2) then some true
      else areCoupledGo rest
    | g1, g2 =>
      match is_ref_hom g1 with
      | none => none
      | some h1 =>
        if !h1 then (is_ref_hom g2).map fun h2 => !h2
        else some false

/-- The genotype pairs `are_coupled` iterates over: one pair per sample of
`record1`'s header, in header order. -/
def gtPairs (record1 record2 : VCFRecord) : List (Genotype × Genotype) :=
  (List.range record1.header.samples.length).map fun i =>
    (genotypeOf record1 i, genotypeOf record2 i)

/-- Embeds `are_coupled` of `src/resolve.rs`.  `none` models the
`panic!("Inconsistent VCF headers")` on differing headers (and any `unwrap`
panic inside the loop). -/
def are_coupled (record1 record2 : VCFRecord) : Option Bool :=
  if record1.header = record2.header then areCoupledGo (gtPairs record1 record2)
  else none

/-- Embeds `are_conflicting` of `src/resolve.rs`; the Rust `&&` short-circuits,
so `are_coupled` (and hence its panic) is only reached when the variant
ranges overlap. -/
def are_conflicting (first second : VCFRecord) : Option Bool :=
  if is_range_overlapping (variant_ref_range first) (variant_ref_range second)
  then are_coupled first second
  else some false

/-! ### `src/forge.rs`: the rank store -/

/-- Position → rank map (`type SiteMap` in `src/forge.rs`), as an association
list; the `HashMap` is only ever looked up and extended at vacant keys. -/
abbrev SiteMap : Type := List (Nat × Nat)

/-- Chromosome → `SiteMap` map (`type RegSiteMap` in `src/forge.rs`). -/
abbrev RegSiteMap : Type := List (String × SiteMap)

/-- Lookup of a site map entry (`HashMap::get`). -/
def smFind (sm : SiteMap) (pos : Nat) : Option Nat :=
  match sm with
  | [] => none
  | (p, r) :: rest => if p = pos then some r else smFind rest pos

/-- Lookup of a region entry (`HashMap::get`). -/
def rsFind (m : RegSiteMap) (region : String) : Option SiteMap :=
  match m with
  | [] => none
  | (reg, sm) :: rest => if reg = region then some sm else rsFind rest region

/-- Combined lookup, chromosome first, then position. -/
def rsLookup (m : RegSiteMap) (region : String) (pos : Nat) : Option Nat :=
  match rsFind m region with
  | some sm => smFind sm pos
  | none => none

/-- Embeds the insertion
`smap.entry(region).or_insert(HashMap::new()).entry(pos)` / `v.insert(r)` of
`load_rank`, for a `(region, pos)` key the caller has checked to be vacant. -/
def rsInsert (m : RegSiteMap) (region : String) (pos r : Nat) : RegSiteMap :=
  match m with
  | [] => [(region, [(pos, r)])]
  | (reg, sm) :: rest =>
    if reg = region then (reg, sm ++ [(pos, r)]) :: rest
    else (reg, sm) :: rsInsert rest region pos r

/-- Rust's `str::split(',')` on the character list of a string: the pieces
between commas, keeping empty pieces (so a string with `k` commas yields
`k + 1` pieces). -/
def splitComma : List Char → List (List Char)
  | [] => [[]]
  | c :: cs =>
    if c = ',' then [] :: splitComma cs
    else
      match splitComma cs with
      | [] => [[c]]
      | piece :: rest => (c :: piece) :: rest

/-- Rust's `str::parse::<u64>()`: an optional leading `'+'`, then one or more
decimal digits, with the value bounded by `u64::MAX = 2^64 - 1`. -/
def parseU64 (cs : List Char) : Option Nat :=
  let digits := match cs with
    | '+' :: rest => rest
    | other => other
  if digits = [] then none
  else if digits.all Char.isDigit then
    let v := digits.foldl (fun a c => a * 10 + (c.toNat - 48)) 0
    if v < 2 ^ 64 then some v else none
  else none

/-- Rust's `str::trim_end` (restricted to the ASCII whitespace characters, as
found in a rank file: blank, tab, line feed, carriage return). -/
def trimEnd (s : String) : String :=
  ⟨(s.data.reverse.dropWhile fun c =>
      c = ' ' ∨ c = '\t' ∨ c = '\n' ∨ c = '\r').reverse⟩

/-- Embeds `parse_id` of `src/forge.rs`: split on `','`, require exactly two
fields, parse the position as an unsigned integer, require an ASCII region. -/
def parse_id (id : String) : Option (String × Nat) :=
  match splitComma id.data with
  | [region, posStr] =>
    match parseU64 posStr with
    | some pos =>
      if region.all (fun c => c.toNat < 128) then some (⟨region⟩, pos)
      else none
    | none => none
  | _ => none

/-- Embeds `forge_rank` of `src/forge.rs`. -/
def forge_rank (record : VCFRecord) (ranks : RegSiteMap) : Option Nat :=
  match rsFind ranks record.chromosome with
  | some sitemap => smFind sitemap record.position
  | none => none

/-- The Rust cast `(top * nof_records as f64) as usize`: truncation toward
zero, which for a non-negative value is the floor, and which saturates to `0`
for negative values.  The `f64` is modelled as a rational; the floor of
`top * count` is computed as Euclidean division of `top.num * count` by the
(positive) denominator, which equals `⌊top * count⌋`. -/
def topCount (top : ℚ) (count : Nat) : Nat :=
  ((top.num * count).ediv top.den).toNat

/-- The token loop of `load_rank` (`src/forge.rs`, lines 77-124).  Arguments
after the token list: the map built so far, the running rank `r` (incremented
for every successfully read token, be it inserted, duplicate or malformed)
and the count `i` of distinct entries inserted so far.  `none` models
`std::process::exit(1)` on a malformed token when the whole file has fewer
than two tokens; the `break` on `i == n` returns the map built so far. -/
def loadGo (nof_records n : Nat) :
    List String → RegSiteMap → Nat → Nat → Option RegSiteMap
  | [], smap, _, _ => some smap
  | item :: rest, smap, r, i =>
    match parse_id (trimEnd item) with
    | some (region, pos) =>
      match rsLookup smap region pos with
      | some _ => loadGo nof_records n rest smap (r + 1) i
      | none =>
        let smap2 := rsInsert smap region pos r
        if i + 1 = n then some smap2
        else loadGo nof_records n rest smap2 (r + 1) (i + 1)
    | none =>
      if nof_records < 2 then none
      else loadGo nof_records n rest smap (r + 1) i

/-- Embeds `load_rank` of `src/forge.rs`.  The tab-splitting of the file into
tokens is done by the (external) buffered reader; the embedding therefore
takes the token list directly, with `nof_records = tokens.length` as counted
by the first pass over the file. -/
def load_rank (tokens : List String) (top : ℚ) : Option RegSiteMap :=
  let nof_records := tokens.length
  let n := topCount top nof_records
  loadGo nof_records n tokens [] 1 0

/-! ### `src/resolve.rs`: cluster resolution and the streaming loop -/

/-- Sentinel rank `usize::MAX` used for records absent from the rank store. -/
def USIZE_MAX : Nat := 2 ^ 64 - 1

/-- The expression `forge_rank(record, ranks).unwrap_or(&usize::MAX)`. -/
def extRank (record : VCFRecord) (ranks : RegSiteMap) : Nat :=
  (forge_rank record ranks).getD USIZE_MAX

/-- Rust's `iter().enumerate()` with a starting offset: the list of
`(index, element)` pairs, indices counted from `k`. -/
def enumFrom (k : Nat) : List α → List (Nat × α)
  | [] => []
  | a :: l => (k, a) :: enumFrom (k + 1) l

/-- The inner scan of `resolve_cluster` (`src/resolve.rs`, lines 58-68): for
an anchor `record`, walk the later cluster entries; every conflicting entry
is marked processed and its rank raced against the running best
`(hiIdx, hiRank)` (strict improvement only).  Returns the processed flags and
the final best; `none` models a panic propagated from `are_conflicting`. -/
def scanGo (ranks : RegSiteMap) (record : VCFRecord) :
    List (Nat × VCFRecord) → List Bool → Nat → Nat →
    Option (List Bool × Nat × Nat)
  | [], processed, hiIdx, hiRank => some (processed, hiIdx, hiRank)
  | (cursor, other) :: rest, processed, hiIdx, hiRank =>
    match are_conflicting record other with
    | none => none
    | some true =>
      if extRank other ranks < hiRank then
        scanGo ranks record rest (processed.set cursor true) cursor
          (extRank other ranks)
      else
        scanGo ranks record rest (processed.set cursor true) hiIdx hiRank
    | some false => scanGo ranks record rest processed hiIdx hiRank

/-- The outer loop of `resolve_cluster` (`src/resolve.rs`, lines 52-72): walk
the enumerated cluster; skip processed indices; for an unclaimed anchor run
the inner scan and push the winning index onto `selected`. -/
def resolveClusterGo (ranks : RegSiteMap) :
    List (Nat × VCFRecord) → List Bool → List Nat → Option (List Nat)
  | [], _, selected => some selected
  | (idx, record) :: rest, processed, selected =>
    if processed.getD idx false = true then
      resolveClusterGo ranks rest processed selected
    else
      match scanGo ranks record rest processed idx (extRank record ranks) with
      | none => none
      | some (processed2, hiIdx, _) =>
        resolveClusterGo ranks rest processed2 (selected ++ [hiIdx])

/-- Insertion of a value into an ascending-sorted list (stable). -/
def insertSorted (x : Nat) : List Nat → List Nat
  | [] => [x]
  | y :: ys => if x ≤ y then x :: y :: ys else y :: insertSorted x ys

/-- Ascending sort, modelling `selected.sort()`. -/
def sortNat : List Nat → List Nat
  | [] => []
  | x :: xs => insertSorted x (sortNat xs)

/-- Embeds `resolve_cluster` of `src/resolve.rs`. -/
def resolve_cluster (cluster : List VCFRecord) (ranks : RegSiteMap) :
    Option (List Nat) :=
  match resolveClusterGo ranks (enumFrom 0 cluster)
      (List.replicate cluster.length false) [] with
  | none => none
  | some selected => some (sortNat selected)

/-- Embeds `write_selected` of `src/resolve.rs`: the records a cluster
contributes to the output stream, one write per selected index. -/
def write_selected (cluster : List VCFRecord) (selected : List Nat) :
    List VCFRecord :=
  selected.map fun idx => cluster.getD idx default

/-- The main loop of `resolve` (`src/resolve.rs`, lines 252-286).  Arguments:
remaining input records, the current `pre_record`, its cumulative merged
range `pre_range`, the pending `cluster` buffer, and the output written so
far.  Mirrors the source exactly, including the end-of-stream branch, which
writes `pre_record` and breaks without inspecting `cluster`. -/
def resolveLoop (ranks : RegSiteMap) :
    List VCFRecord → VCFRecord → PosRange → List VCFRecord → List VCFRecord →
    Option (List VCFRecord)
  | [], pre, _, _, out => some (out ++ [pre])
  | cur :: rest, pre, preRange, cluster, out =>
    let curRange := site_ref_range cur
    if pre.chromosome = cur.chromosome ∧
        is_range_overlapping preRange curRange = true then
      resolveLoop ranks rest cur (merge_range preRange curRange)
        ((if cluster = [] then [pre] else cluster) ++ [cur]) out
    else if cluster = [] then
      resolveLoop ranks rest cur curRange [] (out ++ [pre])
    else
      match resolve_cluster cluster ranks with
      | none => none
      | some sel =>
        resolveLoop ranks rest cur curRange [] (out ++ write_selected cluster sel)

/-- Embeds `resolve` of `src/resolve.rs`, at the record-stream level: the
reader and writer collaborators are replaced by the input list and the
returned output list, and the rank store (loaded by the Rust code from
`ranks_path` with `top = 1.0`) is passed directly. -/
def resolveStream (ranks : RegSiteMap) (records : List VCFRecord) :
    Option (List VCFRecord) :=
  match records with
  | [] => some []
  | pre :: rest => resolveLoop ranks rest pre (site_ref_range pre) [] []

/-! ### Derived notions used by the claims -/

/-- Modelled from the spec: the per-genotype-pair coupling table of §4.3,
written out independently of the implemented loop so the two can be
compared.  A sample is coupled when: both genotypes missing; one missing and
the present one not homozygous-reference; both phased and some haplotype
slot has the alt bit in both; otherwise (at least one unphased) neither is
homozygous-reference. -/
def spec_coupled : Genotype → Genotype → Bool
  | .Missing, .Missing => true
  | .Missing, .Phased v => !(v.all fun x => !x)
  | .Missing, .Unphased v => !(v.all fun x => !x)
  | .Phased v, .Missing => !(v.all fun x => !x)
  | .Unphased v, .Missing => !(v.all fun x => !x)
  | .Phased v1, .Phased v2 => (v1.zip v2).any fun x => x.1 && x.2
  | .Phased v1, .Unphased v2 => !(v1.all fun x => !x) && !(v2.all fun x => !x)
  | .Unphased v1, .Phased v2 => !(v1.all fun x => !x) && !(v2.all fun x => !x)
  | .Unphased v1, .Unphased v2 => !(v1.all fun x => !x) && !(v2.all fun x => !x)

/-- The later cluster entries found conflicting with an anchor record, with
their indices, in scan order; `none` if one of the conflict tests panics.
This is exactly the set of cursors the inner scan of `resolve_cluster`
claims for the anchor (the scan tests every later index, also ones already
marked processed). -/
def conflictingWith (record : VCFRecord) :
    List (Nat × VCFRecord) → Option (List (Nat × VCFRecord))
  | [] => some []
  | (j, other) :: rest =>
    match are_conflicting record other with
    | none => none
    | some true => (conflictingWith record rest).map ((j, other) :: ·)
    | some false => conflictingWith record rest

/-- The resolved conflict group of the anchor at index `a` of a cluster: the
anchor together with the later records found conflicting with it, each
paired with its cluster index. -/
def anchorGroup (cluster : List VCFRecord) (a : Nat) :
    Option (List (Nat × VCFRecord)) :=
  match cluster.get? a with
  | none => none
  | some record =>
    (conflictingWith record (enumFrom (a + 1) (cluster.drop (a + 1)))).map
      ((a, record) :: ·)

/-- The 1-based ordinal (counting from `r`) of the first token in the list
that parses to `(region, pos)`; every token — valid, duplicate or malformed —
advances the ordinal by one, exactly as `load_rank`'s running rank does. -/
def firstOrdinalFrom (r : Nat) : List String → String → Nat → Option Nat
  | [], _, _ => none
  | t :: rest, region, pos =>
    if parse_id (trimEnd t) = some (region, pos) then some r
    else firstOrdinalFrom (r + 1) rest region pos

/-- The 1-based ordinal, among all tokens of the file, of the first token
that parses to `(region, pos)`. -/
def firstOrdinal (tokens : List String) (region : String) (pos : Nat) :
    Option Nat :=
  firstOrdinalFrom 1 tokens region pos

/-- Streams in which no two consecutive records are on the same chromosome
with overlapping site ranges: the clusterer never leaves the pass-through
path on them. -/
def noAdjacentOverlap : List VCFRecord → Bool
  | r1 :: r2 :: rest =>
    (!(decide (r1.chromosome = r2.chromosome ∧
        is_range_overlapping (site_ref_range r1) (site_ref_range r2) = true))) &&
    noAdjacentOverlap (r2 :: rest)
  | _ => true

/-! ### Concrete inputs used by the claims -/

/-- A one-sample header. -/
def hdrOne : VCFHeader := ⟨[], ["S1"]⟩

/-- A two-sample header. -/
def hdrTwo : VCFHeader := ⟨[], ["S1", "S2"]⟩

/-- A deletion at position 100 (site range [100, 101], variant range
[101, 101]), carried on the sample's first haplotype. -/
def recDel : VCFRecord := ⟨hdrOne, "1", 100, "AT", [.Phased [true]]⟩

/-- A SNV at position 101 (site and variant range [101, 101]), carried on the
sample's first haplotype, hence coupled with `recDel`. -/
def recSnp : VCFRecord := ⟨hdrOne, "1", 101, "A", [.Phased [true]]⟩

/-- Ranks for `recDel` (rank 1) and `recSnp` (rank 2). -/
def ranksPair : RegSiteMap := [("1", [(100, 1), (101, 2)])]

/-- Record whose genotype is missing for the first sample and alt-carrying
(first haplotype) for the second. -/
def recMiss1 : VCFRecord := ⟨hdrTwo, "1", 100, "A", [.Missing, .Phased [true]]⟩

/-- Record that is homozygous-reference for the first sample and alt-carrying
(first haplotype) for the second, so that sample 2 is coupled between
`recMiss1` and `recMiss2` while sample 1 is (definitely) not. -/
def recMiss2 : VCFRecord :=
  ⟨hdrTwo, "1", 100, "A", [.Phased [false], .Phased [true]]⟩

/-- The rank-file tokens of the spec's rank-file example. -/
def rankTokens : List String := ["chr1,100", "chr1,100", "chr1,200"]

/-- Anchor A of a three-record cluster: positions 100-103, haplotype 1. -/
def ovlA : VCFRecord := ⟨hdrOne, "1", 100, "ABCD", [.Phased [true, false]]⟩

/-- Anchor B: positions 101-103, haplotype 2, so not coupled with `ovlA`. -/
def ovlB : VCFRecord := ⟨hdrOne, "1", 101, "ABC", [.Phased [false, true]]⟩

/-- Record conflicting with both `ovlA` (haplotype 1) and `ovlB`
(haplotype 2). -/
def ovlC : VCFRecord := ⟨hdrOne, "1", 103, "A", [.Phased [true, true]]⟩

/-- An isolated record far to the right, used to flush the cluster through
the break path. -/
def farRec : VCFRecord := ⟨hdrOne, "1", 1000, "A", [.Phased [false, false]]⟩

/-- Ranks making `ovlC` the best-ranked record of the cluster. -/
def ranksOvl : RegSiteMap := [("1", [(103, 1), (100, 2), (101, 3)])]

/-! ### Shared lemmas -/

/-- The per-sample loop of `are_coupled` always returns: in the arm handling
one `Missing` genotype the other one is `Phased` or `Unphased` (the
`Missing`/`Missing` arm precedes it), and in the final arm both genotypes are
`Phased`/`Unphased`, so every `is_ref_hom` it unwraps is `some`. -/
theorem areCoupledGo_isSome (pairs : List (Genotype × Genotype)) :
    (areCoupledGo pairs).isSome = true := by
  induction pairs with
  | nil => rfl
  | cons hd rest ih =>
    obtain ⟨gt1, gt2⟩ := hd
    cases gt1 <;> cases gt2 <;>
      simp only [areCoupledGo, is_ref_hom, Option.map_some] <;>
      first
      | rfl
      | (split <;> simp [ih])

/-! ### Claim C1 -/

/-- Claim C1 (refuted, code bug): at end of stream the main loop of `resolve`
writes only `pre_record` and breaks, without resolving a pending cluster.  On
the two-record conflicting cluster `[recDel, recSnp]` the stream output is
just `[recSnp]` (the last record verbatim), although resolving the cluster
selects index 0 (`recDel`, the better-ranked record): `recDel` is silently
dropped instead of the cluster being resolved and flushed. -/
theorem resolve_eos_pending_cluster_unresolved :
    resolveStream ranksPair [recDel, recSnp] = some [recSnp] ∧
    resolve_cluster [recDel, recSnp] ranksPair = some [0] := by
  constructor <;> decide

/-! ### Claim C2 -/

/-- Claim C2 (refuted, code bug): `are_coupled` is not "some sample is
coupled".  For `recMiss1`/`recMiss2`, sample 1 hits the one-`Missing` arm,
which returns its (not-coupled) verdict immediately, so the coupled sample 2
is never examined: the function returns `some false` although a sample of
the cohort is coupled under the spec's per-genotype-pair table. -/
theorem are_coupled_overlooks_coupled_sample :
    are_coupled recMiss1 recMiss2 = some false ∧
    ((gtPairs recMiss1 recMiss2).any fun p => spec_coupled p.1 p.2) = true := by
  constructor <;> decide

/-! ### Claim C3 -/

/-- Claim C3 counterexample: on the spec's rank-file example the rank of
`(chr1, 200)` is 3, not 2 — the running rank is incremented for every token
read, duplicates included, so ranks are token ordinals, not sequential per
distinct entry. -/
theorem load_rank_example_not_sequential :
    load_rank rankTokens 1 = some [("chr1", [(100, 1), (200, 3)])] ∧
    rsLookup [("chr1", [(100, 1), (200, 3)])] "chr1" 200 ≠ some 2 := by
  constructor <;> decide

/-- Looking up in a site map extended at its end falls back on the appended
entry only when the original map misses the position. -/
theorem smFind_append (pos2 r : Nat) :
    ∀ (sm : SiteMap) (pos : Nat),
      smFind (sm ++ [(pos2, r)]) pos =
        match smFind sm pos with
        | some v => some v
        | none => if pos2 = pos then some r else none := by
  intro sm
  induction sm with
  | nil => intro pos; rfl
  | cons hd sm2 ih =>
    obtain ⟨p, v⟩ := hd
    intro pos
    simp only [List.cons_append, smFind]
    by_cases hp : p = pos
    · simp [hp]
    · simp only [if_neg hp]
      exact ih pos

/-- Appending at the end of a site map that misses `pos2` makes `pos2` map to
the appended rank. -/
theorem smFind_append_self (sm : SiteMap) (pos2 r : Nat)
    (h : smFind sm pos2 = none) :
    smFind (sm ++ [(pos2, r)]) pos2 = some r := by
  rw [smFind_append pos2 r sm pos2, h]
  simp

/-- Appending a `pos2` entry leaves every other position's lookup alone. -/
theorem smFind_append_other (sm : SiteMap) (pos2 r pos : Nat)
    (h : ¬pos2 = pos) :
    smFind (sm ++ [(pos2, r)]) pos = smFind sm pos := by
  rw [smFind_append pos2 r sm pos]
  cases hf : smFind sm pos <;> simp [h]

/-- Inserting a vacant `(region, pos2)` key changes exactly that key's lookup
and no other. -/
theorem rsLookup_rsInsert (reg2 : String) (pos2 r : Nat) :
    ∀ (smap : RegSiteMap),
      rsLookup smap reg2 pos2 = none →
      ∀ (region : String) (pos : Nat),
        rsLookup (rsInsert smap reg2 pos2 r) region pos =
          if reg2 = region ∧ pos2 = pos then some r
          else rsLookup smap region pos := by
  intro smap
  induction smap with
  | nil =>
    intro _ region pos
    by_cases h1 : reg2 = region
    · by_cases h2 : pos2 = pos
      · simp [rsInsert, rsLookup, rsFind, smFind, h1, h2]
      · simp [rsInsert, rsLookup, rsFind, smFind, h1, h2]
    · simp [rsInsert, rsLookup, rsFind, h1]
  | cons hd rest ih =>
    obtain ⟨reg, sm⟩ := hd
    intro hvac region pos
    by_cases h1 : reg = reg2
    · subst h1
      have hsm : smFind sm pos2 = none := by
        simpa [rsLookup, rsFind] using hvac
      simp only [rsInsert, if_pos rfl]
      by_cases h2 : reg = region
      · subst h2
        by_cases h3 : pos2 = pos
        · subst h3
          simp [rsLookup, rsFind, smFind_append_self sm pos2 r hsm]
        · simp [rsLookup, rsFind, smFind_append_other sm pos2 r pos h3, h3]
      · have hcond : ¬(reg = region ∧ pos2 = pos) := fun h => h2 h.1
        simp [rsLookup, rsFind, h2, hcond]
    · have hvac2 : rsLookup rest reg2 pos2 = none := by
        simpa [rsLookup, rsFind, h1] using hvac
      simp only [rsInsert, if_neg h1]
      by_cases h2 : reg = region
      · subst h2
        have hcond : ¬(reg2 = reg ∧ pos2 = pos) := fun h => h1 h.1.symm
        simp [rsLookup, rsFind, hcond]
      · simp only [rsLookup, rsFind, if_neg h2]
        have := ih hvac2 region pos
        simp only [rsLookup] at this
        exact this

/-- Loop invariant for the token loop of `load_rank`: every rank in the final
map either was already in the incoming map, or the key was absent from the
incoming map and its rank is the running ordinal (counting every remaining
token, malformed and duplicate ones included) of the first remaining token
parsing to that key. -/
theorem loadGo_lookup_firstOrdinal (nof n : Nat) :
    ∀ (rest : List String) (smap : RegSiteMap) (r i : Nat) (m : RegSiteMap),
      loadGo nof n rest smap r i = some m →
      ∀ (region : String) (pos rk : Nat),
        rsLookup m region pos = some rk →
        rsLookup smap region pos = some rk ∨
          (rsLookup smap region pos = none ∧
            firstOrdinalFrom r rest region pos = some rk) := by
  intro rest
  induction rest with
  | nil =>
    intro smap r i m hrun region pos rk hlook
    simp only [loadGo, Option.some_inj] at hrun
    subst hrun
    exact Or.inl hlook
  | cons t rest2 ih =>
    intro smap r i m hrun region pos rk hlook
    simp only [loadGo] at hrun
    split at hrun
    · rename_i reg2 pos2 hp
      split at hrun
      · -- duplicate key: map unchanged, ordinal consumed
        rename_i dup hdup
        rcases ih smap (r + 1) i m hrun region pos rk hlook with h1 | ⟨h2a, h2b⟩
        · exact Or.inl h1
        · refine Or.inr ⟨h2a, ?_⟩
          have hne : ¬(parse_id (trimEnd t) = some (region, pos)) := by
            intro hcontra
            rw [hp, Option.some_inj, Prod.mk.injEq] at hcontra
            rw [hcontra.1, hcontra.2] at hdup
            rw [hdup] at h2a
            exact Option.noConfusion h2a
          simp only [firstOrdinalFrom]
          rw [if_neg hne]
          exact h2b
      · -- vacant key: inserted with the current ordinal
        rename_i hvac
        split at hrun
        · -- break on i + 1 = n
          rw [Option.some_inj] at hrun
          subst hrun
          rw [rsLookup_rsInsert reg2 pos2 r smap hvac region pos] at hlook
          split at hlook
          · rename_i hcond
            rw [Option.some_inj] at hlook
            refine Or.inr ⟨by rw [← hcond.1, ← hcond.2]; exact hvac, ?_⟩
            simp only [firstOrdinalFrom]
            rw [if_pos (by rw [hp, hcond.1, hcond.2]), hlook]
          · exact Or.inl hlook
        · rcases ih (rsInsert smap reg2 pos2 r) (r + 1) (i + 1) m hrun
            region pos rk hlook with h1 | ⟨h2a, h2b⟩
          · rw [rsLookup_rsInsert reg2 pos2 r smap hvac region pos] at h1
            split at h1
            · rename_i hcond
              rw [Option.some_inj] at h1
              refine Or.inr ⟨by rw [← hcond.1, ← hcond.2]; exact hvac, ?_⟩
              simp only [firstOrdinalFrom]
              rw [if_pos (by rw [hp, hcond.1, hcond.2]), h1]
            · exact Or.inl h1
          · rw [rsLookup_rsInsert reg2 pos2 r smap hvac region pos] at h2a
            split at h2a
            · exact absurd h2a (by simp)
            · rename_i hcond
              refine Or.inr ⟨h2a, ?_⟩
              have hne : ¬(parse_id (trimEnd t) = some (region, pos)) := by
                intro hcontra
                rw [hp, Option.some_inj, Prod.mk.injEq] at hcontra
                exact hcond ⟨hcontra.1, hcontra.2⟩
              simp only [firstOrdinalFrom]
              rw [if_neg hne]
              exact h2b
    · -- malformed token: skipped (the file has at least two tokens here),
      -- ordinal consumed
      rename_i hp
      split at hrun
      · exact absurd hrun (by simp)
      · rcases ih smap (r + 1) i m hrun region pos rk hlook with h1 | ⟨h2a, h2b⟩
        · exact Or.inl h1
        · refine Or.inr ⟨h2a, ?_⟩
          have hne : ¬(parse_id (trimEnd t) = some (region, pos)) := by
            rw [hp]
            exact fun h => Option.noConfusion h
          simp only [firstOrdinalFrom]
          rw [if_neg hne]
          exact h2b

/-- Claim C3 amended: for every rank file and topFraction, every rank held by
the loaded map is the 1-based ordinal, among all tokens of the file, of the
first token parsing to that `(chromosome, position)` — the running rank is
incremented for every token read, so duplicate and malformed tokens also
consume rank numbers, and a repeat keeps the first occurrence's rank;
specifically, for the spec's example tokens with topFraction 1.0 the result
is `{chr1: {100: 1, 200: 3}}`. -/
theorem load_rank_rank_is_first_token_ordinal :
    (∀ (tokens : List String) (top : ℚ) (m : RegSiteMap),
      load_rank tokens top = some m →
      ∀ (region : String) (pos rk : Nat),
        rsLookup m region pos = some rk →
        firstOrdinal tokens region pos = some rk) ∧
    load_rank rankTokens 1 = some [("chr1", [(100, 1), (200, 3)])] := by
  constructor
  · intro tokens top m hload region pos rk hlook
    rcases loadGo_lookup_firstOrdinal tokens.length
        (topCount top tokens.length) tokens [] 1 0 m hload region pos rk hlook
      with h1 | ⟨-, h2⟩
    · exact absurd h1 (by simp [rsLookup, rsFind])
    · exact h2
  · decide

/-- Witness for the amended claim C3, on a rank file holding a malformed
token and a duplicate token: both consume ordinals, so the entry inserted by
the last token carries rank 4, the ordinal of its first (and only)
occurrence. -/
theorem load_rank_rank_is_first_token_ordinal_witness :
    firstOrdinal ["chr1,100", "bad", "chr1,100", "chr1,200"] "chr1" 200 =
      some 4 :=
  load_rank_rank_is_first_token_ordinal.1
    ["chr1,100", "bad", "chr1,100", "chr1,200"] 1
    [("chr1", [(100, 1), (200, 4)])] (by decide) "chr1" 200 4 (by decide)

/-! ### Claim C4 -/

/-- Claim C4 (refuted, code bug): the inner scan of `resolve_cluster` does not
skip already-claimed cursors, so a record conflicting with two mutually
non-conflicting anchors can be selected by both.  On the cluster
`[ovlA, ovlB, ovlC]` (where `ovlC` conflicts with both anchors and has the
best rank) the selected index list is `[2, 2]` and `write_selected` writes
the record `ovlC` twice. -/
theorem resolve_cluster_duplicate_selection :
    resolve_cluster [ovlA, ovlB, ovlC] ranksOvl = some [2, 2] ∧
    write_selected [ovlA, ovlB, ovlC] [2, 2] = [ovlC, ovlC] := by
  constructor <;> decide

/-! ### Claim C7 -/

/-- Claim C7 (refuted, code bug): with `topFraction = 0` the target count is
`n = 0`, but the loop's break test `i == n` is only evaluated after the
counter has been incremented to 1, so it never fires and the whole file is
loaded: the resulting map is not empty and holds more than `n` distinct
entries. -/
theorem load_rank_top_zero_loads_all :
    topCount 0 1 = 0 ∧
    load_rank ["chr1,100"] 0 = some [("chr1", [(100, 1)])] ∧
    load_rank ["chr1,100"] 0 ≠ some [] := by
  refine ⟨by decide, by decide, by decide⟩

/-! ### Claim C8 -/

/-- The token loop of `load_rank` cannot abort when the file holds at least
two tokens: the only fatal branch is guarded by `nof_records < 2`. -/
theorem loadGo_isSome_of_two_tokens (nof n : Nat) (hnof : 2 ≤ nof) :
    ∀ (tokens : List String) (smap : RegSiteMap) (r i : Nat),
      (loadGo nof n tokens smap r i).isSome = true := by
  intro tokens
  induction tokens with
  | nil => intro smap r i; rfl
  | cons item rest ih =>
    intro smap r i
    simp only [loadGo]
    split
    · split
      · exact ih _ _ _
      · split
        · rfl
        · exact ih _ _ _
    · split
      · exact absurd (by assumption) (Nat.not_lt.mpr hnof)
      · exact ih _ _ _

/-- Claim C8 (confirmed): `load_rank` aborts the process on a malformed token
exactly when the rank file contains fewer than two tokens (i.e. the file is a
single malformed token); with two or more tokens malformed tokens are skipped
without aborting, and a short map after a full pass is only a warning. -/
theorem load_rank_fatal_iff_single_malformed (tokens : List String) (top : ℚ) :
    load_rank tokens top = none ↔
      tokens.length < 2 ∧ ∃ t ∈ tokens, parse_id (trimEnd t) = none := by
  match tokens with
  | [] => simp [load_rank, loadGo]
  | [t] =>
    constructor
    · intro h
      cases hp : parse_id (trimEnd t) with
      | none => exact ⟨by simp, t, by simp, hp⟩
      | some v =>
        obtain ⟨region, pos⟩ := v
        exfalso
        simp only [load_rank, loadGo, hp, rsLookup, rsFind,
          List.length_singleton] at h
        split at h <;> simp [loadGo] at h
    · rintro ⟨-, t2, ht2, hbad⟩
      rw [List.mem_singleton] at ht2
      subst ht2
      simp [load_rank, loadGo, hbad]
  | t1 :: t2 :: ts =>
    have hs : (load_rank (t1 :: t2 :: ts) top).isSome = true := by
      simp only [load_rank]
      exact loadGo_isSome_of_two_tokens _ _
        (by simp only [List.length_cons]; omega) _ _ _ _
    constructor
    · intro h
      rw [h] at hs
      simp at hs
    · rintro ⟨hlt, -⟩
      simp only [List.length_cons] at hlt
      omega

/-! ### Claim C9 -/

/-- Claim C9 (confirmed): comparing two records whose sample sets differ is
fatal — `are_coupled` panics (the headers must then differ) instead of
returning; and when the two headers are equal it always returns a result
(no panic from the header check nor from the loop's unwraps). -/
theorem are_coupled_schema_mismatch_fatal (r1 r2 : VCFRecord) :
    (r1.header.samples ≠ r2.header.samples → are_coupled r1 r2 = none) ∧
    (r1.header = r2.header → (are_coupled r1 r2).isSome = true) := by
  constructor
  · intro hne
    have hh : r1.header ≠ r2.header := fun h => hne (congrArg VCFHeader.samples h)
    simp [are_coupled, hh]
  · intro heq
    simp [are_coupled, heq, areCoupledGo_isSome]

/-- Witness for claim C9: a concrete schema mismatch panics, a concrete pair
with equal headers returns a result. -/
theorem are_coupled_schema_mismatch_fatal_witness :
    are_coupled recMiss1 recDel = none ∧
    (are_coupled recDel recSnp).isSome = true :=
  ⟨(are_coupled_schema_mismatch_fatal recMiss1 recDel).1 (by decide),
   (are_coupled_schema_mismatch_fatal recDel recSnp).2 (by decide)⟩

/-! ### Claim C10 -/

/-- Claim C10 (confirmed): the `is_ref_hom(...).unwrap()` calls inside
`are_coupled` never panic — for every list of genotype pairs the per-sample
loop returns a value (the one-`Missing` arms and the final arm only unwrap
`is_ref_hom` of non-`Missing` genotypes, which is always `some`). -/
theorem are_coupled_unwrapped_is_ref_hom_total (pairs : List (Genotype × Genotype)) :
    (areCoupledGo pairs).isSome = true :=
  areCoupledGo_isSome pairs

/-! ### Claim C6 -/

/-- Claim C6 counterexample: re-running the engine on its own output is not a
no-op.  On the stream `[ovlA, ovlB, ovlC, farRec]` the first run emits
`ovlC` twice (the duplicate-selection of `resolve_cluster`) and the second
run collapses the two copies, so the second output differs from the first:
the emitted stream contained conflicting (here even identical) records. -/
theorem resolve_not_idempotent :
    resolveStream ranksOvl [ovlA, ovlB, ovlC, farRec] =
      some [ovlC, ovlC, farRec] ∧
    resolveStream ranksOvl [ovlC, ovlC, farRec] = some [ovlC, farRec] ∧
    ([ovlC, farRec] : List VCFRecord) ≠ [ovlC, ovlC, farRec] := by
  refine ⟨by decide, by decide, by decide⟩

/-- The main loop passes every record through unchanged when no record
overlaps its successor on the same chromosome (the cluster buffer then never
fills). -/
theorem resolveLoop_passthrough (ranks : RegSiteMap) :
    ∀ (rest : List VCFRecord) (pre : VCFRecord) (out : List VCFRecord),
      noAdjacentOverlap (pre :: rest) = true →
      resolveLoop ranks rest pre (site_ref_range pre) [] out =
        some (out ++ pre :: rest) := by
  intro rest
  induction rest with
  | nil => intro pre out _; rfl
  | cons cur rest2 ih =>
    intro pre out h
    simp only [noAdjacentOverlap, Bool.and_eq_true, Bool.not_eq_true',
      decide_eq_false_iff_not] at h
    obtain ⟨hbreak, htail⟩ := h
    have htail2 : noAdjacentOverlap (cur :: rest2) = true := by
      simpa [noAdjacentOverlap] using htail
    simp only [resolveLoop, if_neg hbreak, if_pos rfl]
    rw [ih cur (out ++ [pre]) htail2]
    simp

/-- Claim C6 amended: the engine is a no-op on every stream in which no two
consecutive records are on the same chromosome with overlapping site ranges
(no cluster ever forms, every record passes through unchanged, so a second
application returns the same stream); in general re-running is not a no-op,
because the emitted stream can still contain conflicting — even duplicate —
records. -/
theorem resolve_noop_without_adjacent_overlap (ranks : RegSiteMap)
    (s : List VCFRecord) (h : noAdjacentOverlap s = true) :
    resolveStream ranks s = some s := by
  match s with
  | [] => rfl
  | pre :: rest =>
    simp only [resolveStream]
    exact resolveLoop_passthrough ranks rest pre [] h

/-- Witness for the amended claim C6: a concrete overlap-free stream is
returned unchanged. -/
theorem resolve_noop_without_adjacent_overlap_witness :
    noAdjacentOverlap [recDel, farRec] = true ∧
    resolveStream [] [recDel, farRec] = some [recDel, farRec] :=
  ⟨by decide, resolve_noop_without_adjacent_overlap [] [recDel, farRec] (by decide)⟩

/-! ### Claim C5: helper lemmas -/

/-- Membership after a sorted insertion comes from the inserted value or the
original list. -/
theorem mem_insertSorted (x a : Nat) :
    ∀ l : List Nat, a ∈ insertSorted x l → a = x ∨ a ∈ l := by
  intro l
  induction l with
  | nil =>
    intro h
    simp only [insertSorted, List.mem_singleton] at h
    exact Or.inl h
  | cons y ys ih =>
    intro h
    simp only [insertSorted] at h
    split at h
    · simp at h
      rcases h with h1 | h2 | h3
      · exact Or.inl h1
      · exact Or.inr (by simp [h2])
      · exact Or.inr (by simp [h3])
    · rcases List.mem_cons.mp h with h1 | h2
      · exact Or.inr (by simp [h1])
      · rcases ih h2 with h3 | h4
        · exact Or.inl h3
        · exact Or.inr (List.mem_cons_of_mem _ h4)

/-- Sorting does not introduce new members. -/
theorem mem_sortNat (a : Nat) : ∀ l : List Nat, a ∈ sortNat l → a ∈ l := by
  intro l
  induction l with
  | nil => intro h; simp [sortNat] at h
  | cons x xs ih =>
    intro h
    simp only [sortNat] at h
    rcases mem_insertSorted x a _ h with h1 | h2
    · simp [h1]
    · exact List.mem_cons_of_mem _ (ih h2)

/-- Splitting a `drop` that starts with a cons: the head sits at index `k`
and the tail is the next drop. -/
theorem drop_eq_cons_split {α : Type} (l : List α) :
    ∀ (k : Nat) (r : α) (t : List α), l.drop k = r :: t →
      l.get? k = some r ∧ l.drop (k + 1) = t := by
  induction l with
  | nil => intro k r t h; simp at h
  | cons a l2 ih =>
    intro k r t h
    cases k with
    | zero =>
      rw [List.drop_zero] at h
      injection h with h1 h2
      subst h1
      subst h2
      exact ⟨rfl, rfl⟩
    | succ k2 =>
      simp only [List.drop_succ_cons] at h
      exact ih k2 r t h

/-- Every index produced by `enumFrom k` is at least `k`. -/
theorem mem_enumFrom_le {α : Type} (q : Nat × α) :
    ∀ (l : List α) (k : Nat), q ∈ enumFrom k l → k ≤ q.1 := by
  intro l
  induction l with
  | nil => intro k h; simp [enumFrom] at h
  | cons a l2 ih =>
    intro k h
    simp only [enumFrom] at h
    rcases List.mem_cons.mp h with h1 | h2
    · simp [h1]
    · exact Nat.le_of_succ_le (ih (k + 1) h2)

/-- The indices produced by `enumFrom` are strictly increasing. -/
theorem enumFrom_pairwise {α : Type} :
    ∀ (l : List α) (k : Nat),
      List.Pairwise (fun p q => p.1 < q.1) (enumFrom k l) := by
  intro l
  induction l with
  | nil => intro k; simp [enumFrom]
  | cons a l2 ih =>
    intro k
    simp only [enumFrom]
    refine List.Pairwise.cons ?_ (ih (k + 1))
    intro q hq
    exact Nat.lt_of_succ_le (mem_enumFrom_le q l2 (k + 1) hq)

/-- The entries claimed as conflicting all come from the scanned list. -/
theorem conflictingWith_mem (record : VCFRecord) :
    ∀ (pairs cs : List (Nat × VCFRecord)),
      conflictingWith record pairs = some cs → ∀ q ∈ cs, q ∈ pairs := by
  intro pairs
  induction pairs with
  | nil =>
    intro cs h q hq
    simp only [conflictingWith, Option.some_inj] at h
    subst h
    simp at hq
  | cons hd rest ih =>
    obtain ⟨j, other⟩ := hd
    intro cs h q hq
    simp only [conflictingWith] at h
    split at h
    · exact absurd h (by simp)
    · rcases Option.map_eq_some'.mp h with ⟨cs2, hcs2, hmap⟩
      subst hmap
      rcases List.mem_cons.mp hq with h1 | h2
      · exact h1 ▸ List.mem_cons_self _ _
      · exact List.mem_cons_of_mem _ (ih cs2 hcs2 q h2)
    · exact List.mem_cons_of_mem _ (ih cs h q hq)

/-- The inner scan of `resolve_cluster` is a first-minimum computation: if it
returns `(­_, h2, r2)` from the initial best `(hiIdx, hiRank)`, then the
claimed conflicts are `conflictingWith record pairs`, the final best rank
`r2` is a lower bound of `hiRank` and of every claimed conflict's rank, the
final best `h2` is the initial best (with its rank) or a claimed conflict
whose rank strictly improved on `hiRank`, and any claimed conflict attaining
`r2` is at or after the final best (strict improvement only). -/
theorem scanGo_spec (ranks : RegSiteMap) (record : VCFRecord) :
    ∀ (pairs : List (Nat × VCFRecord)) (processed : List Bool)
      (hiIdx hiRank : Nat) (p2 : List Bool) (h2 r2 : Nat),
      scanGo ranks record pairs processed hiIdx hiRank = some (p2, h2, r2) →
      List.Pairwise (fun p q => p.1 < q.1) pairs →
      ∃ cs, conflictingWith record pairs = some cs ∧
        r2 ≤ hiRank ∧
        ((h2 = hiIdx ∧ r2 = hiRank) ∨
          (∃ o, (h2, o) ∈ cs ∧ r2 = extRank o ranks ∧ r2 < hiRank)) ∧
        (∀ q ∈ cs, r2 ≤ extRank q.2 ranks) ∧
        (∀ q ∈ cs, extRank q.2 ranks = r2 → h2 = hiIdx ∨ h2 ≤ q.1) := by
  intro pairs
  induction pairs with
  | nil =>
    intro processed hiIdx hiRank p2 h2 r2 hrun _
    simp only [scanGo, Option.some_inj, Prod.mk.injEq] at hrun
    obtain ⟨-, hh, hr⟩ := hrun
    subst hh
    subst hr
    exact ⟨[], rfl, le_refl _, Or.inl ⟨rfl, rfl⟩, by simp, by simp⟩
  | cons hd rest ih =>
    obtain ⟨cursor, other⟩ := hd
    intro processed hiIdx hiRank p2 h2 r2 hrun hpair
    obtain ⟨hhead, htail⟩ := List.pairwise_cons.mp hpair
    simp only [scanGo] at hrun
    split at hrun
    · exact absurd hrun (by simp)
    · rename_i heq
      split at hrun
      · -- strict improvement: the best becomes (cursor, extRank other)
        rename_i hor
        obtain ⟨cs, hcs, hle, hA, hB, hC⟩ :=
          ih (processed.set cursor true) cursor (extRank other ranks)
            p2 h2 r2 hrun htail
        refine ⟨(cursor, other) :: cs, by simp [conflictingWith, heq, hcs],
          le_of_lt (lt_of_le_of_lt hle hor), ?_, ?_, ?_⟩
        · rcases hA with ⟨hA1, hA2⟩ | ⟨o, ho, hoeq, holt⟩
          · exact Or.inr ⟨other, hA1 ▸ List.mem_cons_self _ _, hA2,
              hA2 ▸ hor⟩
          · exact Or.inr ⟨o, List.mem_cons_of_mem _ ho, hoeq,
              lt_trans holt hor⟩
        · intro q hq
          rcases List.mem_cons.mp hq with h1 | h1
          · rw [h1]
            exact hle
          · exact hB q h1
        · intro q hq hqr
          rcases List.mem_cons.mp hq with h1 | h1
          · rcases hA with ⟨hA1, hA2⟩ | ⟨o, ho, hoeq, holt⟩
            · exact Or.inr (by simp [hA1, h1])
            · exfalso
              rw [h1] at hqr
              exact absurd (hqr ▸ holt) (lt_irrefl r2)
          · rcases hC q h1 hqr with h3 | h3
            · have hq2 : q ∈ rest := conflictingWith_mem record rest cs hcs q h1
              exact Or.inr (by rw [h3]; exact le_of_lt (hhead q hq2))
            · exact Or.inr h3
      · -- no improvement: the best stays (hiIdx, hiRank)
        rename_i hor
        obtain ⟨cs, hcs, hle, hA, hB, hC⟩ :=
          ih (processed.set cursor true) hiIdx hiRank p2 h2 r2 hrun htail
        refine ⟨(cursor, other) :: cs, by simp [conflictingWith, heq, hcs],
          hle, ?_, ?_, ?_⟩
        · rcases hA with hA0 | ⟨o, ho, hoeq, holt⟩
          · exact Or.inl hA0
          · exact Or.inr ⟨o, List.mem_cons_of_mem _ ho, hoeq, holt⟩
        · intro q hq
          rcases List.mem_cons.mp hq with h1 | h1
          · rw [h1]
            exact le_trans hle (Nat.not_lt.mp hor)
          · exact hB q h1
        · intro q hq hqr
          rcases List.mem_cons.mp hq with h1 | h1
          · have hr2 : r2 = hiRank := by
              rw [h1] at hqr
              exact le_antisymm hle (hqr ▸ Nat.not_lt.mp hor)
            rcases hA with ⟨hA1, -⟩ | ⟨o, ho, hoeq, holt⟩
            · exact Or.inl hA1
            · exact absurd (hr2 ▸ holt) (lt_irrefl hiRank)
          · exact hC q h1 hqr
    · rename_i heq
      obtain ⟨cs, hcs, hle, hA, hB, hC⟩ :=
        ih processed hiIdx hiRank p2 h2 r2 hrun htail
      exact ⟨cs, by simp [conflictingWith, heq, hcs], hle, hA, hB, hC⟩

/-- Every index the outer loop of `resolve_cluster` adds to `selected` is the
first minimum-rank member of the conflict group of some anchor. -/
theorem resolveClusterGo_spec (ranks : RegSiteMap) (cluster : List VCFRecord) :
    ∀ (l : List VCFRecord) (k : Nat) (processed : List Bool)
      (selected sel : List Nat),
      cluster.drop k = l →
      resolveClusterGo ranks (enumFrom k l) processed selected = some sel →
      ∀ s ∈ sel, s ∈ selected ∨
        ∃ a g, anchorGroup cluster a = some g ∧
          ∃ rs, (s, rs) ∈ g ∧
            (∀ q ∈ g, extRank rs ranks ≤ extRank q.2 ranks) ∧
            (∀ q ∈ g, extRank q.2 ranks = extRank rs ranks → s ≤ q.1) := by
  intro l
  induction l with
  | nil =>
    intro k processed selected sel hdrop hrun s hs
    simp only [enumFrom, resolveClusterGo, Option.some_inj] at hrun
    subst hrun
    exact Or.inl hs
  | cons record tail ih =>
    intro k processed selected sel hdrop hrun s hs
    obtain ⟨hget, hdrop2⟩ := drop_eq_cons_split cluster k record tail hdrop
    simp only [enumFrom, resolveClusterGo] at hrun
    split at hrun
    · exact ih (k + 1) processed selected sel hdrop2 hrun s hs
    · split at hrun
      · exact absurd hrun (by simp)
      · rename_i processed2 hiIdx r2 heq
        rcases ih (k + 1) processed2 (selected ++ [hiIdx]) sel hdrop2 hrun s hs
          with hsel | hphi
        · rcases List.mem_append.mp hsel with h1 | h1
          · exact Or.inl h1
          · rw [List.mem_singleton] at h1
            subst h1
            obtain ⟨cs, hcs, hle, hA, hB, hC⟩ :=
              scanGo_spec ranks record (enumFrom (k + 1) tail) processed k
                (extRank record ranks) processed2 s r2 heq
                (enumFrom_pairwise tail (k + 1))
            have hcsmem : ∀ q ∈ cs, k + 1 ≤ q.1 := fun q hq =>
              mem_enumFrom_le q tail (k + 1)
                (conflictingWith_mem record _ cs hcs q hq)
            refine Or.inr ⟨k, (k, record) :: cs, ?_, ?_⟩
            · simp only [anchorGroup, hget, hdrop2]
              rw [hcs]
              rfl
            · rcases hA with ⟨hA1, hA2⟩ | ⟨o, ho, hoeq, holt⟩
              · refine ⟨record, hA1 ▸ List.mem_cons_self _ _, ?_, ?_⟩
                · intro q hq
                  rcases List.mem_cons.mp hq with h3 | h3
                  · rw [h3]
                  · exact hA2 ▸ hB q h3
                · intro q hq _
                  rcases List.mem_cons.mp hq with h3 | h3
                  · rw [h3, hA1]
                  · exact hA1 ▸ Nat.le_of_lt (Nat.lt_of_succ_le (hcsmem q h3))
              · refine ⟨o, List.mem_cons_of_mem _ ho, ?_, ?_⟩
                · intro q hq
                  rcases List.mem_cons.mp hq with h3 | h3
                  · rw [h3]
                    exact hoeq ▸ le_of_lt holt
                  · exact hoeq ▸ hB q h3
                · intro q hq hqr
                  rw [← hoeq] at hqr
                  rcases List.mem_cons.mp hq with h3 | h3
                  · exfalso
                    rw [h3] at hqr
                    exact absurd (hqr ▸ holt) (lt_irrefl r2)
                  · rcases hC q h3 hqr with h4 | h4
                    · exfalso
                      have hks := hcsmem (s, o) ho
                      simp only at hks
                      omega
                    · exact h4
        · exact Or.inr hphi

/-- Claim C5 (confirmed): every index selected by `resolve_cluster` is, for
some anchor, the minimum-`extRank` member of that anchor's conflict group
(the anchor with the later records found conflicting with it); records
absent from the rank store get `USIZE_MAX` through `extRank`; on rank ties
the selected index is at or before every tying member, i.e. the
earliest-scanned one. -/
theorem resolve_cluster_selects_group_minimum
    (cluster : List VCFRecord) (ranks : RegSiteMap) (sel : List Nat)
    (hrun : resolve_cluster cluster ranks = some sel)
    (s : Nat) (hs : s ∈ sel) :
    ∃ a g, anchorGroup cluster a = some g ∧
      ∃ rs, (s, rs) ∈ g ∧
        (∀ q ∈ g, extRank rs ranks ≤ extRank q.2 ranks) ∧
        (∀ q ∈ g, extRank q.2 ranks = extRank rs ranks → s ≤ q.1) := by
  simp only [resolve_cluster] at hrun
  split at hrun
  · exact absurd hrun (by simp)
  · rename_i sel0 heq
    rw [Option.some_inj] at hrun
    subst hrun
    have hs0 : s ∈ sel0 := mem_sortNat s sel0 hs
    rcases resolveClusterGo_spec ranks cluster cluster 0
      (List.replicate cluster.length false) [] sel0 (List.drop_zero cluster)
      heq s hs0
      with h1 | h2
    · exact absurd h1 (by simp)
    · exact h2

/-- Witness for claim C5 at the concrete cluster `[recDel, recSnp]`, whose
resolution selects index 0. -/
theorem resolve_cluster_selects_group_minimum_witness :
    ∃ a g, anchorGroup [recDel, recSnp] a = some g ∧
      ∃ rs, ((0 : Nat), rs) ∈ g ∧
        (∀ q ∈ g, extRank rs ranksPair ≤ extRank q.2 ranksPair) ∧
        (∀ q ∈ g, extRank q.2 ranksPair = extRank rs ranksPair → 0 ≤ q.1) :=
  resolve_cluster_selects_group_minimum [recDel, recSnp] ranksPair [0]
    (by decide) 0 (by decide)

end Forgers
